import Mathlib

/-!
Verification development for `imagepath.py` (Google Drive image path extractor).

The script is embedded shallowly:
* the Drive metadata endpoint (`service.files().get`) becomes a function
  `Service : String → Option FolderMeta`, where `none` models a raised lookup error;
* the Drive listing endpoint (`service.files().list` with the query built in
  `get_image_files`) is modelled from the spec as a provider-side filter over an
  abstract account listing, with pagination as an arbitrary split into pages;
* `get_folder_path` becomes a fuelled recursion carrying the memo cache as explicit
  state and logging every metadata fetch it issues;
* file writes become values: the text report is a list of lines, the JSON dump is a
  JSON value.
-/

/-- Metadata of one folder as returned by service.files().get with
fields name, parents; name and parents already carry the Python-side
defaults of the .get accessors (missing name is the empty string, missing
parents is the empty list). -/
structure FolderMeta where
  name : String
  parents : List String
deriving DecidableEq, Repr

/-- The Drive single-file metadata endpoint: none models the fetch raising an
exception for that folder id. -/
abbrev Service : Type := String → Option FolderMeta

/-- The folder_cache dict of imagepath.py: an association list, most recent
insertion first. -/
abbrev Cache : Type := List (String × String)

/-- Dict lookup (folder_id in folder_cache / folder_cache[folder_id]). -/
def cacheLookup : Cache → String → Option String
  | [], _ => none
  | (k, v) :: rest, key => if key = k then some v else cacheLookup rest key

/-- The observable outcome of one get_folder_path call: the returned path,
the cache after the call, and the ids fetched from the service (in order),
one entry per service.files().get evaluation. -/
structure ResolveResult where
  path : String
  cache : Cache
  fetched : List String
deriving Repr

/-- get_folder_path (imagepath.py lines 82-106). Fuel models Python's call
stack: every claim below is about fuel at least the ancestor-chain length,
where the recursion bottoms out before fuel runs out. Cache hits return
without touching the service; a failed fetch is caught and yields the
literal "Unknown" without caching; otherwise the first parent is resolved
recursively and parent path and name are joined with "/" unless the parent
path is empty (Python truthiness of parent_path). -/
def get_folder_path (service : Service) : Nat → String → Cache → ResolveResult
  | 0, _, folder_cache => ⟨"Unknown", folder_cache, []⟩
  | fuel + 1, folder_id, folder_cache =>
    match cacheLookup folder_cache folder_id with
    | some p => ⟨p, folder_cache, []⟩
    | none =>
      match service folder_id with
      | none => ⟨"Unknown", folder_cache, [folder_id]⟩
      | some folder =>
        match folder.parents with
        | [] => ⟨folder.name, (folder_id, folder.name) :: folder_cache, [folder_id]⟩
        | p :: _ =>
          let r := get_folder_path service fuel p folder_cache
          let full_path := if r.path = "" then folder.name else r.path ++ "/" ++ folder.name
          ⟨full_path, (folder_id, full_path) :: r.cache, folder_id :: r.fetched⟩

/-- An ancestor chain in the parent graph: (id, name) pairs from the parentless
root down to the given folder, each non-root folder's first reported parent
being the previous entry. This is exactly the hypothesis of the claims about
acyclic chains that end in a parentless folder. -/
inductive Chain (service : Service) : String → List (String × String) → Prop
  | root (fid name : String) (h : service fid = some ⟨name, []⟩) :
      Chain service fid [(fid, name)]
  | step (fid name pid : String) (ps : List String) (pairs : List (String × String))
      (h : service fid = some ⟨name, pid :: ps⟩) (hp : Chain service pid pairs) :
      Chain service fid (pairs ++ [(fid, name)])

/-- The path get_folder_path actually builds along a chain of folder names
(root to leaf): the code joins with "/" except that an empty parent path
suppresses the separator (Python truthiness of parent_path). -/
def codeJoin (names : List String) : String :=
  names.foldl (fun parent_path n => if parent_path = "" then n else parent_path ++ "/" ++ n) ""

/-- The path the spec describes: the folder names concatenated with "/"
separators in root-to-leaf order. -/
def slashJoin : List String → String
  | [] => ""
  | [n] => n
  | n :: rest => n ++ "/" ++ slashJoin rest

/-- One image record built in get_image_files (lines 68-74): name, id,
the two links and the parents list, with the Python .get defaults applied. -/
structure ImageRecord where
  name : String
  id : String
  web_view_link : String
  web_content_link : String
  parents : List String
deriving DecidableEq, Repr

/-- A raw file as held by the provider: the fields imagepath.py requests
plus the trashed flag that the provider-side query filters on. Optional
fields model fields absent from the provider's response. -/
structure DriveFile where
  name : Option String
  id : String
  trashed : Bool
  parents : Option (List String)
  webViewLink : Option String
  webContentLink : Option String
deriving DecidableEq, Repr

/-- Modelled from the spec: the provider-side evaluation of the query string
built in get_image_files (lines 48-50), "trashed=false" plus, when a folder
scope is given, "folder_id in parents". The provider is an opaque external
service; the spec states it returns every non-trashed file matching the
query. Pagination is modelled separately as a split of this listing. -/
def listFiles (drive : List DriveFile) (folder_id : Option String) : List DriveFile :=
  drive.filter fun f =>
    !f.trashed &&
      (match folder_id with
       | some fid => (f.parents.getD []).contains fid
       | none => true)

/-- Index of the last occurrence of a character (Python str.rfind, as a
partial index). -/
def lastIndexOf (c : Char) : List Char → Option Nat
  | [] => none
  | a :: rest =>
    match lastIndexOf c rest with
    | some i => some (i + 1)
    | none => if a = c then some 0 else none

/-- os.path.splitext(p)[1] on posix: the extension starts at the last dot
that comes after the last slash, unless every character between that slash
and that dot is itself a dot (leading dots of the base name are not
extension separators). Mirrors CPython genericpath._splitext. -/
def splitext_ext (s : List Char) : List Char :=
  let sepIndex : Int := ((lastIndexOf '/' s).map Int.ofNat).getD (-1)
  let dotIndex : Int := ((lastIndexOf '.' s).map Int.ofNat).getD (-1)
  if sepIndex < dotIndex then
    let start := (sepIndex + 1).toNat
    let between := (s.drop start).take (dotIndex.toNat - start)
    if between.any (· != '.') then s.drop dotIndex.toNat else []
  else []

/-- Python str.lower, restricted to the ASCII case mapping. -/
def pyLower (s : String) : String := ⟨s.data.map Char.toLower⟩

/-- IMAGE_EXTENSIONS (line 18). -/
def IMAGE_EXTENSIONS : List String :=
  [".jpg", ".jpeg", ".png", ".gif", ".bmp", ".tiff", ".tif", ".webp", ".svg", ".ico"]

/-- The extension test of get_image_files lines 64-67: the extension of the
lower-cased name belongs to IMAGE_EXTENSIONS. -/
def isImageName (name : String) : Bool :=
  IMAGE_EXTENSIONS.contains (String.mk (splitext_ext (pyLower name).data))

/-- The record appended for an accepted file (lines 68-74), with the .get
defaults for missing fields. -/
def toImageRecord (f : DriveFile) : ImageRecord :=
  ⟨f.name.getD "", f.id, f.webViewLink.getD "", f.webContentLink.getD "", f.parents.getD []⟩

/-- The body of the page loop of get_image_files (lines 63-74): append the
record of every file whose name passes the extension test. -/
def collectImages (images : List ImageRecord) (files : List DriveFile) : List ImageRecord :=
  files.foldl
    (fun acc f => if isImageName (f.name.getD "") then acc ++ [toImageRecord f] else acc)
    images

/-- get_image_files (lines 42-80) over the pages the provider returns for
its query: accumulate accepted records page by page, starting from the
empty list. -/
def get_image_files (pages : List (List DriveFile)) : List ImageRecord :=
  pages.foldl collectImages []

/-- One written line of the report body (lines 126-129), given the computed
full path. -/
def reportLine (include_links : Bool) (img : ImageRecord) (full_path : String) : String :=
  if include_links then
    full_path ++ " | " ++ img.id ++ " | " ++ img.web_view_link ++ " | " ++ img.web_content_link
  else full_path

/-- The full path computed for one image (lines 118-123): resolve the first
parent when there is one, then join folder path and file name with "/". -/
def imageFullPath (service : Service) (fuel : Nat) (img : ImageRecord)
    (folder_cache : Cache) : String × Cache :=
  match img.parents with
  | [] => (img.name, folder_cache)
  | p :: _ =>
    let r := get_folder_path service fuel p folder_cache
    (r.path ++ "/" ++ img.name, r.cache)

/-- The per-image loop of save_image_paths (lines 117-129), threading the
one folder_cache created at line 110 through all images; yields each
image's computed full path and the line written for it, plus the final
cache. -/
def saveLoop (service : Service) (fuel : Nat) (include_links : Bool) :
    List ImageRecord → Cache → List (String × String) × Cache
  | [], folder_cache => ([], folder_cache)
  | img :: rest, folder_cache =>
    let pc := imageFullPath service fuel img folder_cache
    let tail := saveLoop service fuel include_links rest pc.2
    ((pc.1, reportLine include_links img pc.1) :: tail.1, tail.2)

/-- The header written at lines 113-115 (the trailing empty string is the
blank line of the double newline). -/
def headerLines (images : List ImageRecord) : List String :=
  ["# Google Drive Image Paths",
   "# Total images found: " ++ toString images.length,
   "# Format: [Full Path] | [File ID] | [View Link] | [Download Link]",
   ""]

/-- save_image_paths (lines 108-131) as the list of lines written to the
text report. -/
def save_image_paths (service : Service) (fuel : Nat) (images : List ImageRecord)
    (include_links : Bool) : List String :=
  headerLines images ++ (saveLoop service fuel include_links images []).1.map Prod.snd

/-- A JSON value, as far as json.dump of the images list needs. -/
inductive Json where
  | str : String → Json
  | arr : List Json → Json
  | obj : List (String × Json) → Json

/-- The JSON object json.dump writes for one image record (the dict built at
lines 68-74). -/
def encodeImage (img : ImageRecord) : Json :=
  .obj [("name", .str img.name),
        ("id", .str img.id),
        ("web_view_link", .str img.web_view_link),
        ("web_content_link", .str img.web_content_link),
        ("parents", .arr (img.parents.map Json.str))]

/-- The JSON array json.dump writes at line 167: the raw listing, without
computed paths. -/
def encodeImages (images : List ImageRecord) : Json :=
  .arr (images.map encodeImage)

/-- Field access in a parsed JSON object. -/
def jsonLookup : List (String × Json) → String → Option Json
  | [], _ => none
  | (k, v) :: rest, key => if k = key then some v else jsonLookup rest key

/-- Modelled from the spec: reading one record's "id" back from the parsed
JSON file (the repository only writes the file; the round-trip read is the
spec's wording). -/
def decodeId : Json → Option String
  | .obj fields =>
    match jsonLookup fields "id" with
    | some (.str s) => some s
    | _ => none
  | _ => none

/-- Modelled from the spec: the ids of all records of a parsed JSON array. -/
def decodeIdList : List Json → Option (List String)
  | [] => some []
  | j :: rest =>
    match decodeId j, decodeIdList rest with
    | some s, some l => some (s :: l)
    | _, _ => none

/-- Modelled from the spec: the ids read back from the parsed JSON output. -/
def decodeIds : Json → Option (List String)
  | .arr js => decodeIdList js
  | _ => none

/-- Python str.replace for the fixed pattern of line 165: substitute every
occurrence of ".txt" by ".json", scanning left to right without overlap. -/
def replaceTxtJson : List Char → List Char
  | '.' :: 't' :: 'x' :: 't' :: rest => '.' :: 'j' :: 's' :: 'o' :: 'n' :: replaceTxtJson rest
  | c :: rest => c :: replaceTxtJson rest
  | [] => []

/-- Whether ".txt" occurs as a contiguous substring. -/
def hasTxt : List Char → Bool
  | '.' :: 't' :: 'x' :: 't' :: _ => true
  | _ :: rest => hasTxt rest
  | [] => false

/-- json_file = output_file.replace('.txt', '.json') (line 165). -/
def jsonFileName (output_file : String) : String :=
  ⟨replaceTxtJson output_file.data⟩

/-- A memo cache is consistent with the service when every entry is the
resolved path of its folder id: the value the code computes along that
folder's ancestor chain. This is what the caches built by the program look
like. -/
def ConsistentCache (service : Service) (c : Cache) : Prop :=
  ∀ k v, cacheLookup c k = some v →
    ∃ pairs, Chain service k pairs ∧ v = codeJoin (pairs.map Prod.snd)

/-- Content written to one output file: text report lines or a JSON value. -/
inductive FileData where
  | text : List String → FileData
  | jsonData : Json → FileData

/-- What a run prints and writes from the empty-listing check onward. -/
structure RunResult where
  printed : List String
  written : List (String × FileData)

/-- main from line 149 on, after get_image_files returned: the empty check,
the output filename default (inputs are taken post-strip), the text report
write and the JSON write. -/
def mainAfterListing (service : Service) (fuel : Nat) (images : List ImageRecord)
    (output_file_input : String) (include_links : Bool) : RunResult :=
  if images = [] then
    ⟨["No image files found."], []⟩
  else
    let output_file := if output_file_input = "" then "image_paths.txt" else output_file_input
    let json_file := jsonFileName output_file
    ⟨["Found " ++ toString images.length ++ " image files.",
      "Image paths saved to " ++ output_file,
      "Also saved JSON data to " ++ json_file],
     [(output_file, FileData.text (save_image_paths service fuel images include_links)),
      (json_file, FileData.jsonData (encodeImages images))]⟩

/-- Branch equation: cache hit. -/
theorem get_folder_path_hit (service : Service) (n : Nat) (fid : String) (c : Cache)
    (p : String) (h : cacheLookup c fid = some p) :
    get_folder_path service (n + 1) fid c = ⟨p, c, []⟩ := by
  simp [get_folder_path, h]

/-- Branch equation: uncached id whose fetch raises. -/
theorem get_folder_path_err (service : Service) (n : Nat) (fid : String) (c : Cache)
    (h1 : cacheLookup c fid = none) (h2 : service fid = none) :
    get_folder_path service (n + 1) fid c = ⟨"Unknown", c, [fid]⟩ := by
  simp [get_folder_path, h1, h2]

/-- Branch equation: uncached parentless folder. -/
theorem get_folder_path_root (service : Service) (n : Nat) (fid : String) (c : Cache)
    (name : String) (h1 : cacheLookup c fid = none) (h2 : service fid = some ⟨name, []⟩) :
    get_folder_path service (n + 1) fid c = ⟨name, (fid, name) :: c, [fid]⟩ := by
  simp [get_folder_path, h1, h2]

/-- Branch equation: uncached folder with a first parent. -/
theorem get_folder_path_step (service : Service) (n : Nat) (fid : String) (c : Cache)
    (name p : String) (ps : List String)
    (h1 : cacheLookup c fid = none) (h2 : service fid = some ⟨name, p :: ps⟩) :
    get_folder_path service (n + 1) fid c =
      ⟨if (get_folder_path service n p c).path = "" then name
          else (get_folder_path service n p c).path ++ "/" ++ name,
        (fid,
          if (get_folder_path service n p c).path = "" then name
            else (get_folder_path service n p c).path ++ "/" ++ name) ::
          (get_folder_path service n p c).cache,
        fid :: (get_folder_path service n p c).fetched⟩ := by
  simp [get_folder_path, h1, h2]

/-- A failing, uncached folder id resolves to "Unknown" and leaves the cache
exactly as it was; at positive fuel the one service fetch for it is issued. -/
theorem get_folder_path_fail (service : Service) (fuel : Nat) (k : String) (c : Cache)
    (hfail : service k = none) (hk : cacheLookup c k = none) :
    (get_folder_path service fuel k c).path = "Unknown" ∧
      (get_folder_path service fuel k c).cache = c ∧
      (1 ≤ fuel → (get_folder_path service fuel k c).fetched = [k]) := by
  cases fuel with
  | zero => simp [get_folder_path]
  | succ n => simp [get_folder_path, hk, hfail]

/-- An id whose fetch fails is never added to the cache by any resolution:
if it is absent before a call, it is absent after it. -/
theorem cacheLookup_keep (service : Service) (k : String)
    (hfail : service k = none) :
    ∀ (fuel : Nat) (fid : String) (c : Cache), cacheLookup c k = none →
      cacheLookup (get_folder_path service fuel fid c).cache k = none := by
  intro fuel
  induction fuel with
  | zero => intro fid c hk; simpa [get_folder_path] using hk
  | succ n ih =>
    intro fid c hk
    cases hcl : cacheLookup c fid with
    | some p => rw [get_folder_path_hit service n fid c p hcl]; exact hk
    | none =>
      cases hsv : service fid with
      | none => rw [get_folder_path_err service n fid c hcl hsv]; exact hk
      | some folder =>
        have hne : k ≠ fid := by
          intro h; rw [h, hsv] at hfail; exact Option.noConfusion hfail
        obtain ⟨name, parents⟩ := folder
        cases parents with
        | nil =>
          rw [get_folder_path_root service n fid c name hcl hsv]
          simpa [cacheLookup, hne] using hk
        | cons p ps =>
          rw [get_folder_path_step service n fid c name p ps hcl hsv]
          simpa [cacheLookup, hne] using ih p c hk

/-- Every cache entry present after a call was either present before it or
belongs to an id whose service fetch succeeds: failures are never cached. -/
theorem cacheLookup_entries (service : Service) :
    ∀ (fuel : Nat) (fid : String) (c : Cache) (k v : String),
      cacheLookup (get_folder_path service fuel fid c).cache k = some v →
      cacheLookup c k = some v ∨ (service k).isSome := by
  intro fuel
  induction fuel with
  | zero => intro fid c k v h; exact Or.inl (by simpa [get_folder_path] using h)
  | succ n ih =>
    intro fid c k v h
    cases hcl : cacheLookup c fid with
    | some p => rw [get_folder_path_hit service n fid c p hcl] at h; exact Or.inl h
    | none =>
      cases hsv : service fid with
      | none => rw [get_folder_path_err service n fid c hcl hsv] at h; exact Or.inl h
      | some folder =>
        obtain ⟨name, parents⟩ := folder
        cases parents with
        | nil =>
          rw [get_folder_path_root service n fid c name hcl hsv] at h
          simp only [cacheLookup] at h
          by_cases hkf : k = fid
          · subst hkf; exact Or.inr (by simp [hsv])
          · rw [if_neg hkf] at h; exact Or.inl h
        | cons p ps =>
          rw [get_folder_path_step service n fid c name p ps hcl hsv] at h
          simp only [cacheLookup] at h
          by_cases hkf : k = fid
          · subst hkf; exact Or.inr (by simp [hsv])
          · rw [if_neg hkf] at h; exact ih p c k v h

/-- A cached folder id is never fetched again: any later resolution, of any
folder, issues no service call for it. -/
theorem no_refetch (service : Service) (g : String) :
    ∀ (fuel : Nat) (fid : String) (c : Cache), (cacheLookup c g).isSome →
      g ∉ (get_folder_path service fuel fid c).fetched := by
  intro fuel
  induction fuel with
  | zero => intro fid c hg; simp [get_folder_path]
  | succ n ih =>
    intro fid c hg
    cases hcl : cacheLookup c fid with
    | some p => rw [get_folder_path_hit service n fid c p hcl]; simp
    | none =>
      have hgf : g ≠ fid := by
        intro h; rw [h, hcl] at hg; exact Bool.noConfusion hg
      cases hsv : service fid with
      | none => rw [get_folder_path_err service n fid c hcl hsv]; simpa using hgf
      | some folder =>
        obtain ⟨name, parents⟩ := folder
        cases parents with
        | nil => rw [get_folder_path_root service n fid c name hcl hsv]; simpa using hgf
        | cons p ps =>
          rw [get_folder_path_step service n fid c name p ps hcl hsv]
          simp only [List.mem_cons, not_or]
          exact ⟨hgf, ih p c hg⟩

/-- Inserting an entry preserves presence of every cached key. -/
theorem cacheLookup_cons_isSome (c : Cache) (k0 v0 q : String)
    (h : (cacheLookup c q).isSome) : (cacheLookup ((k0, v0) :: c) q).isSome := by
  simp only [cacheLookup]
  split
  · simp
  · exact h

/-- codeJoin over a chain extended at the leaf applies one join step. -/
theorem codeJoin_append_single (names : List String) (n : String) :
    codeJoin (names ++ [n]) =
      if codeJoin names = "" then n else codeJoin names ++ "/" ++ n := by
  simp [codeJoin, List.foldl_append]

/-- A chain is never empty. -/
theorem chain_ne_nil {service : Service} {fid : String} {pairs : List (String × String)}
    (h : Chain service fid pairs) : pairs ≠ [] := by
  cases h with
  | root fid name h => simp
  | step fid name pid ps pairs h hp => simp

/-- Full evaluation of get_folder_path on an empty cache along an ancestor
chain, at any fuel at least the chain length: the returned path is the
code's join of the chain names, the fetch log is exactly the chain ids from
leaf to root, and every chain id ends up cached. -/
theorem chain_eval (service : Service) {fid : String} {pairs : List (String × String)}
    (h : Chain service fid pairs) :
    ∀ fuel, pairs.length ≤ fuel →
      (get_folder_path service fuel fid []).path = codeJoin (pairs.map Prod.snd) ∧
      (get_folder_path service fuel fid []).fetched = (pairs.map Prod.fst).reverse ∧
      ∀ q ∈ pairs.map Prod.fst,
        (cacheLookup (get_folder_path service fuel fid []).cache q).isSome := by
  induction h with
  | root fid name hsv =>
    intro fuel hf
    obtain ⟨n, rfl⟩ : ∃ n, fuel = n + 1 := by
      cases fuel with
      | zero => simp at hf
      | succ n => exact ⟨n, rfl⟩
    rw [get_folder_path_root service n fid [] name rfl hsv]
    refine ⟨by simp [codeJoin], by simp, ?_⟩
    intro q hq
    simp only [List.map_cons, List.map_nil, List.mem_singleton] at hq
    subst hq
    simp [cacheLookup]
  | step fid name pid ps pairs hsv hp ih =>
    intro fuel hf
    obtain ⟨n, rfl⟩ : ∃ n, fuel = n + 1 := by
      cases fuel with
      | zero => simp at hf
      | succ n => exact ⟨n, rfl⟩
    have hn : pairs.length ≤ n := by
      simpa using Nat.lt_succ_iff.mp (Nat.lt_of_lt_of_le (by simp) hf)
    obtain ⟨h1, h2, h3⟩ := ih n hn
    rw [get_folder_path_step service n fid [] name pid ps rfl hsv]
    refine ⟨?_, ?_, ?_⟩
    · simp only [List.map_append, List.map_cons, List.map_nil, codeJoin_append_single]
      rw [h1]
    · simp only [List.map_append, List.map_cons, List.map_nil, List.reverse_append,
        List.reverse_cons, List.reverse_nil, List.nil_append, List.singleton_append]
      rw [h2]
    · intro q hq
      simp only [List.map_append, List.map_cons, List.map_nil, List.mem_append,
        List.mem_singleton] at hq
      cases hq with
      | inl hq => exact cacheLookup_cons_isSome _ _ _ _ (h3 q hq)
      | inr hq => subst hq; simp [cacheLookup]

/-- For a fixed service, the ancestor chain of a folder is unique. -/
theorem chain_unique {service : Service} {fid : String} {p1 : List (String × String)}
    (h1 : Chain service fid p1) :
    ∀ {p2 : List (String × String)}, Chain service fid p2 → p1 = p2 := by
  induction h1 with
  | root fid name h =>
    intro p2 h2
    cases h2 with
    | root _ name2 h' =>
      rw [h] at h'
      simp only [Option.some.injEq, FolderMeta.mk.injEq] at h'
      rw [h'.1]
    | step _ name2 pid ps pairs h' hp =>
      rw [h] at h'
      simp at h'
  | step fid name pid ps pairs h hp ih =>
    intro p2 h2
    cases h2 with
    | root _ name2 h' =>
      rw [h] at h'
      simp at h'
    | step _ name2 pid2 ps2 pairs2 h' hp2 =>
      rw [h] at h'
      simp only [Option.some.injEq, FolderMeta.mk.injEq, List.cons.injEq] at h'
      obtain ⟨hname, hpid, -⟩ := h'
      rw [hname, ih (hpid ▸ hp2)]

/-- Every initial segment of a chain is itself the chain of the folder at
its end. -/
theorem chain_take {service : Service} {fid : String} {pairs : List (String × String)}
    (h : Chain service fid pairs) :
    ∀ (i : Nat) (hi : i < pairs.length),
      Chain service (pairs.get ⟨i, hi⟩).fst (pairs.take (i + 1)) := by
  induction h with
  | root fid name hsv =>
    intro i hi
    simp only [List.length_singleton] at hi
    interval_cases i
    exact Chain.root fid name hsv
  | step fid name pid ps pairs hsv hp ih =>
    intro i hi
    rcases Nat.lt_or_ge i pairs.length with hlt | hge
    · have hget : ((pairs ++ [(fid, name)]).get ⟨i, hi⟩) = pairs.get ⟨i, hlt⟩ := by
        apply List.get_append
      have htake : (pairs ++ [(fid, name)]).take (i + 1) = pairs.take (i + 1) :=
        List.take_append_of_le_length hlt
      rw [hget, htake]
      exact ih i hlt
    · have hi' : i = pairs.length := by
        have : i < pairs.length + 1 := by simpa using hi
        omega
      subst hi'
      have hget : ((pairs ++ [(fid, name)]).get ⟨pairs.length, hi⟩) = (fid, name) := by
        simp
      have htake : (pairs ++ [(fid, name)]).take (pairs.length + 1) = pairs ++ [(fid, name)] := by
        apply List.take_of_length_le
        simp
      rw [hget, htake]
      exact Chain.step fid name pid ps pairs hsv hp

/-- The ids along a chain are pairwise distinct: a chain that reaches a
parentless root cannot revisit a folder. -/
theorem chain_nodup {service : Service} {fid : String} {pairs : List (String × String)}
    (h : Chain service fid pairs) : (pairs.map Prod.fst).Nodup := by
  rw [List.nodup_iff_injective_get]
  intro i j hij
  have hi : (i : Nat) < pairs.length := by simpa using i.isLt
  have hj : (j : Nat) < pairs.length := by simpa using j.isLt
  have hgi : (pairs.map Prod.fst).get i = (pairs.get ⟨i, hi⟩).fst := by
    simp [List.get_map]
  have hgj : (pairs.map Prod.fst).get j = (pairs.get ⟨j, hj⟩).fst := by
    simp [List.get_map]
  have hci := chain_take h i hi
  have hcj := chain_take h j hj
  rw [hgi, hgj] at hij
  rw [hij] at hci
  have heq := chain_unique hci hcj
  have hlen : pairs.take ((i : Nat) + 1) = pairs.take ((j : Nat) + 1) := heq
  have h1 : (pairs.take ((i : Nat) + 1)).length = (i : Nat) + 1 := by
    rw [List.length_take]; omega
  have h2 : (pairs.take ((j : Nat) + 1)).length = (j : Nat) + 1 := by
    rw [List.length_take]; omega
  apply Fin.ext
  have := congrArg List.length hlen
  rw [h1, h2] at this
  omega

/-- Along a chain, once the fuel reaches the chain length the result no
longer depends on the fuel: the recursion has bottomed out at the
parentless root (or earlier, at a cache hit). -/
theorem chain_fuel_stable {service : Service} {fid : String} {pairs : List (String × String)}
    (h : Chain service fid pairs) :
    ∀ (c : Cache) (fuel1 fuel2 : Nat), pairs.length ≤ fuel1 → pairs.length ≤ fuel2 →
      get_folder_path service fuel1 fid c = get_folder_path service fuel2 fid c := by
  induction h with
  | root fid name hsv =>
    intro c f1 f2 h1 h2
    obtain ⟨n1, rfl⟩ : ∃ n, f1 = n + 1 := by
      cases f1 with
      | zero => simp at h1
      | succ n => exact ⟨n, rfl⟩
    obtain ⟨n2, rfl⟩ : ∃ n, f2 = n + 1 := by
      cases f2 with
      | zero => simp at h2
      | succ n => exact ⟨n, rfl⟩
    cases hcl : cacheLookup c fid with
    | some p =>
      rw [get_folder_path_hit service n1 fid c p hcl, get_folder_path_hit service n2 fid c p hcl]
    | none =>
      rw [get_folder_path_root service n1 fid c name hcl hsv,
        get_folder_path_root service n2 fid c name hcl hsv]
  | step fid name pid ps pairs hsv hp ih =>
    intro c f1 f2 h1 h2
    obtain ⟨n1, rfl⟩ : ∃ n, f1 = n + 1 := by
      cases f1 with
      | zero => simp at h1
      | succ n => exact ⟨n, rfl⟩
    obtain ⟨n2, rfl⟩ : ∃ n, f2 = n + 1 := by
      cases f2 with
      | zero => simp at h2
      | succ n => exact ⟨n, rfl⟩
    have hn1 : pairs.length ≤ n1 := by
      simpa using Nat.lt_succ_iff.mp (Nat.lt_of_lt_of_le (by simp) h1)
    have hn2 : pairs.length ≤ n2 := by
      simpa using Nat.lt_succ_iff.mp (Nat.lt_of_lt_of_le (by simp) h2)
    cases hcl : cacheLookup c fid with
    | some p =>
      rw [get_folder_path_hit service n1 fid c p hcl, get_folder_path_hit service n2 fid c p hcl]
    | none =>
      rw [get_folder_path_step service n1 fid c name pid ps hcl hsv,
        get_folder_path_step service n2 fid c name pid ps hcl hsv,
        ih c n1 n2 hn1 hn2]

/-- Resolving along a chain from any consistent cache returns the same path
as resolving from the empty cache: the code's join of the chain names. -/
theorem chain_eval_consistent (service : Service) {fid : String}
    {pairs : List (String × String)} (h : Chain service fid pairs) :
    ∀ (c : Cache), ConsistentCache service c → ∀ fuel, pairs.length ≤ fuel →
      (get_folder_path service fuel fid c).path = codeJoin (pairs.map Prod.snd) := by
  induction h with
  | root fid name hsv =>
    intro c hc fuel hf
    obtain ⟨n, rfl⟩ : ∃ n, fuel = n + 1 := by
      cases fuel with
      | zero => simp at hf
      | succ n => exact ⟨n, rfl⟩
    cases hcl : cacheLookup c fid with
    | some v =>
      rw [get_folder_path_hit service n fid c v hcl]
      obtain ⟨pairs0, hch, hv⟩ := hc fid v hcl
      have huniq := chain_unique (Chain.root fid name hsv) hch
      rw [hv, ← huniq]
    | none =>
      rw [get_folder_path_root service n fid c name hcl hsv]
      simp [codeJoin]
  | step fid name pid ps pairs hsv hp ih =>
    intro c hc fuel hf
    obtain ⟨n, rfl⟩ : ∃ n, fuel = n + 1 := by
      cases fuel with
      | zero => simp at hf
      | succ n => exact ⟨n, rfl⟩
    have hn : pairs.length ≤ n := by
      simpa using Nat.lt_succ_iff.mp (Nat.lt_of_lt_of_le (by simp) hf)
    cases hcl : cacheLookup c fid with
    | some v =>
      rw [get_folder_path_hit service n fid c v hcl]
      obtain ⟨pairs0, hch, hv⟩ := hc fid v hcl
      have huniq := chain_unique (Chain.step fid name pid ps pairs hsv hp) hch
      rw [hv, ← huniq]
    | none =>
      rw [get_folder_path_step service n fid c name pid ps hcl hsv]
      have h1 := ih c hc n hn
      simp only [List.map_append, List.map_cons, List.map_nil, codeJoin_append_single]
      rw [h1]

/-- Joining a nonempty path with a further segment is nonempty. -/
theorem append_slash_ne_empty (a b : String) : a ++ "/" ++ b ≠ "" := by
  intro h
  have hlen := congrArg String.length h
  rw [String.length_append, String.length_append] at hlen
  have h1 : String.length "/" = 1 := rfl
  have h2 : String.length "" = 0 := rfl
  rw [h1, h2] at hlen
  omega

/-- slashJoin of a nonempty list of nonempty names is nonempty. -/
theorem slashJoin_ne_empty :
    ∀ (names : List String), names ≠ [] → (∀ n ∈ names, n ≠ "") → slashJoin names ≠ ""
  | [], h, _ => absurd rfl h
  | [n], _, hne => hne n (by simp)
  | n :: m :: rest, _, _ => append_slash_ne_empty n (slashJoin (m :: rest))

/-- slashJoin over a chain extended at the leaf appends one segment. -/
theorem slashJoin_append_single (names : List String) (n : String) (h : names ≠ []) :
    slashJoin (names ++ [n]) = slashJoin names ++ "/" ++ n := by
  induction names with
  | nil => exact absurd rfl h
  | cons m rest ih =>
    cases rest with
    | nil => rfl
    | cons k rest2 =>
      have hne : k :: rest2 ≠ [] := by simp
      calc slashJoin ((m :: k :: rest2) ++ [n])
          = m ++ "/" ++ slashJoin ((k :: rest2) ++ [n]) := rfl
        _ = m ++ "/" ++ (slashJoin (k :: rest2) ++ "/" ++ n) := by rw [ih hne]
        _ = slashJoin (m :: k :: rest2) ++ "/" ++ n := by
            rw [show slashJoin (m :: k :: rest2) = m ++ "/" ++ slashJoin (k :: rest2) from rfl]
            simp [String.append_assoc]

/-- When every name is nonempty, the code's join is exactly the slash join
of the spec: the empty-parent special case never fires. -/
theorem codeJoin_eq_slashJoin (names : List String) (h : ∀ n ∈ names, n ≠ "") :
    codeJoin names = slashJoin names := by
  induction names using List.reverseRecOn with
  | nil => rfl
  | append_singleton ns n ih =>
    have hns : ∀ m ∈ ns, m ≠ "" := fun m hm => h m (by simp [hm])
    rw [codeJoin_append_single]
    rcases ns with _ | ⟨k, rest⟩
    · simp [codeJoin, slashJoin]
    · have hne : (k :: rest : List String) ≠ [] := by simp
      have hj := ih hns
      rw [hj, if_neg (slashJoin_ne_empty _ hne hns), slashJoin_append_single _ n hne]

/-- The report loop writes exactly one line per image, whatever happens
during path resolution. -/
theorem saveLoop_length (service : Service) (fuel : Nat) (links : Bool) :
    ∀ (imgs : List ImageRecord) (c : Cache),
      (saveLoop service fuel links imgs c).1.length = imgs.length := by
  intro imgs
  induction imgs with
  | nil => intro c; rfl
  | cons img rest ih => intro c; simp [saveLoop, ih]

/-- The report loop over a split image list: the second half starts from the
cache the first half ends with. -/
theorem saveLoop_append (service : Service) (fuel : Nat) (links : Bool) :
    ∀ (xs ys : List ImageRecord) (c : Cache),
      saveLoop service fuel links (xs ++ ys) c =
        ((saveLoop service fuel links xs c).1 ++
            (saveLoop service fuel links ys (saveLoop service fuel links xs c).2).1,
          (saveLoop service fuel links ys (saveLoop service fuel links xs c).2).2) := by
  intro xs
  induction xs with
  | nil => intro ys c; rfl
  | cons img rest ih =>
    intro ys c
    simp only [List.cons_append, saveLoop, List.append_eq, ih]

/-- An id whose fetch fails stays out of the cache across the whole report
loop. -/
theorem saveLoop_keep (service : Service) (fuel : Nat) (links : Bool) (k : String)
    (hfail : service k = none) :
    ∀ (imgs : List ImageRecord) (c : Cache), cacheLookup c k = none →
      cacheLookup (saveLoop service fuel links imgs c).2 k = none := by
  intro imgs
  induction imgs with
  | nil => intro c hk; exact hk
  | cons img rest ih =>
    intro c hk
    simp only [saveLoop]
    apply ih
    unfold imageFullPath
    cases img.parents with
    | nil => exact hk
    | cons p ps => exact cacheLookup_keep service k hfail fuel p c hk

/-- hasTxt only looks at the tail once the head position does not start the
pattern. -/
theorem hasTxt_tail {c : Char} {rest : List Char} (h : hasTxt (c :: rest) = false) :
    hasTxt rest = false := by
  rw [hasTxt.eq_def] at h
  split at h
  · exact absurd h (by simp)
  · rename_i heq
    injection heq with h1 h2
    rw [h2]
    exact h
  · rename_i heq
    exact absurd heq (by simp)

/-- When the pattern ".txt" does not occur in the stem, the replacement of
line 165 touches exactly the final ".txt": no occurrence of the pattern can
straddle the boundary between stem and extension. -/
theorem replaceTxtJson_append (s : List Char) (h : hasTxt s = false) :
    replaceTxtJson (s ++ ['.', 't', 'x', 't']) = s ++ ['.', 'j', 's', 'o', 'n'] := by
  induction s using hasTxt.induct with
  | case1 rest => simp [hasTxt] at h
  | case2 c rest h2 ih =>
    rw [replaceTxtJson.eq_def]
    split
    · rename_i tail heq
      exfalso
      rcases rest with _ | ⟨a, _ | ⟨b, _ | ⟨d, r⟩⟩⟩ <;>
        simp only [List.cons_append, List.nil_append, List.cons.injEq] at heq
      · exact absurd heq.2.1 (by decide)
      · exact absurd heq.2.2.1 (by decide)
      · exact absurd heq.2.2.2.1 (by decide)
      · exact h2 _ heq.1 (by rw [heq.2.1, heq.2.2.1, heq.2.2.2.1])
    · rename_i head tailr hno heq
      injection heq with hh ht
      subst hh
      rw [← ht, List.append_eq, ih (hasTxt_tail h)]
      simp
    · rename_i heq
      exact absurd heq (by simp)
  | case3 => rfl

/-- The page-body loop appends exactly the records of the files passing the
extension test, in order. -/
theorem collectImages_eq (files : List DriveFile) :
    ∀ images, collectImages images files =
      images ++ (files.filter fun f => isImageName (f.name.getD "")).map toImageRecord := by
  induction files with
  | nil => intro images; simp [collectImages]
  | cons f rest ih =>
    intro images
    simp only [collectImages, List.foldl_cons]
    by_cases hf : isImageName (f.name.getD "")
    · rw [if_pos hf]
      have h2 := ih (images ++ [toImageRecord f])
      simp only [collectImages] at h2
      rw [h2, List.filter_cons_of_pos (by simpa using hf), List.map_cons]
      simp
    · rw [if_neg hf]
      have h2 := ih images
      simp only [collectImages] at h2
      rw [h2, List.filter_cons_of_neg (by simpa using hf)]

/-- get_image_files over the provider's pages: the result is exactly the
extension-filtered concatenated listing, mapped to records. -/
theorem get_image_files_eq (pages : List (List DriveFile)) :
    get_image_files pages =
      (pages.join.filter fun f => isImageName (f.name.getD "")).map toImageRecord := by
  suffices h : ∀ images, pages.foldl collectImages images =
      images ++ (pages.join.filter fun f => isImageName (f.name.getD "")).map toImageRecord by
    simpa [get_image_files] using h []
  induction pages with
  | nil => intro images; simp
  | cons page rest ih =>
    intro images
    simp only [List.foldl_cons, List.join_cons, List.filter_append, List.map_append]
    rw [collectImages_eq, ih, List.append_assoc]

/-- Reading an encoded record's id returns that record's id. -/
theorem decodeId_encodeImage (img : ImageRecord) :
    decodeId (encodeImage img) = some img.id := rfl

/-- Reading back the ids of an encoded image list returns exactly the ids of
the list. -/
theorem decodeIdList_encode (images : List ImageRecord) :
    decodeIdList (images.map encodeImage) = some (images.map ImageRecord.id) := by
  induction images with
  | nil => rfl
  | cons img rest ih =>
    simp only [List.map_cons, decodeIdList, decodeId_encodeImage, ih]

/-- C1 (counterexample to the claim as stated): with a service whose every
fetch fails, both listed images keep a report line and their full paths are
"Unknown/a.jpg" and "Unknown/b.png" — the affected image's full path is not
the literal "Unknown". -/
theorem c1_counterexample :
    ((saveLoop (fun _ => none) 3 true
        [⟨"a.jpg", "id1", "", "", ["p"]⟩, ⟨"b.png", "id2", "", "", ["p"]⟩] []).1.map
        Prod.fst) = ["Unknown/a.jpg", "Unknown/b.png"] ∧
    ("Unknown/a.jpg" : String) ≠ "Unknown" := by
  exact ⟨by decide, by decide⟩

/-- C1 (amended): if the metadata fetch for an image's first parent raises,
get_folder_path returns the literal "Unknown" for that folder without
propagating the error and without touching the cache; the affected image's
full path in the report is "Unknown/" followed by the image name; and the
report body still carries one line for every image in the listing. -/
theorem c1_unknown_degradation (service : Service) (fuel : Nat) (include_links : Bool)
    (pre post : List ImageRecord) (img : ImageRecord) (p : String) (ps : List String)
    (hp : img.parents = p :: ps) (hfail : service p = none) :
    (get_folder_path service fuel p []).path = "Unknown" ∧
    (get_folder_path service fuel p []).cache = [] ∧
    ((saveLoop service fuel include_links (pre ++ img :: post) []).1.map Prod.fst)[pre.length]?
        = some ("Unknown/" ++ img.name) ∧
    (saveLoop service fuel include_links (pre ++ img :: post) []).1.length
        = (pre ++ img :: post).length := by
  obtain ⟨h1, h2, -⟩ := get_folder_path_fail service fuel p [] hfail rfl
  refine ⟨h1, h2, ?_, saveLoop_length service fuel include_links (pre ++ img :: post) []⟩
  rw [saveLoop_append, List.map_append]
  have hlen : ((saveLoop service fuel include_links pre []).1.map Prod.fst).length
      = pre.length := by
    rw [List.length_map, saveLoop_length]
  rw [List.getElem?_append_right (le_of_eq hlen), hlen, Nat.sub_self]
  have hkeep : cacheLookup (saveLoop service fuel include_links pre []).2 p = none :=
    saveLoop_keep service fuel include_links p hfail pre [] rfl
  obtain ⟨hu, -, -⟩ :=
    get_folder_path_fail service fuel p (saveLoop service fuel include_links pre []).2 hfail hkeep
  simp only [saveLoop, imageFullPath, hp, List.getElem?_cons_zero, List.map_cons]
  rw [hu]
  have haux : ("Unknown" : String) ++ "/" ++ img.name = "Unknown/" ++ img.name := by
    rw [show ("Unknown" : String) ++ "/" = "Unknown/" by decide]
  rw [haux]

/-- Witness for c1_unknown_degradation: a concrete two-image report where
the first image's parent fetch fails. -/
theorem c1_unknown_degradation_witness :
    ((⟨"a.jpg", "id1", "", "", ["p"]⟩ : ImageRecord).parents = "p" :: []) ∧
    ((fun _ => none : Service) "p" = none) ∧
    ((get_folder_path (fun _ => none) 3 "p" []).path = "Unknown" ∧
      (get_folder_path (fun _ => none) 3 "p" []).cache = [] ∧
      ((saveLoop (fun _ => none) 3 true
          ([] ++ (⟨"a.jpg", "id1", "", "", ["p"]⟩ : ImageRecord) ::
            [⟨"b.png", "id2", "", "", ["q"]⟩]) []).1.map Prod.fst)[([] : List ImageRecord).length]?
          = some ("Unknown/" ++ "a.jpg") ∧
      (saveLoop (fun _ => none) 3 true
          ([] ++ (⟨"a.jpg", "id1", "", "", ["p"]⟩ : ImageRecord) ::
            [⟨"b.png", "id2", "", "", ["q"]⟩]) []).1.length
          = (([] : List ImageRecord) ++ (⟨"a.jpg", "id1", "", "", ["p"]⟩ : ImageRecord) ::
              [⟨"b.png", "id2", "", "", ["q"]⟩]).length) :=
  ⟨rfl, rfl,
    c1_unknown_degradation (fun _ => none) 3 true [] [⟨"b.png", "id2", "", "", ["q"]⟩]
      ⟨"a.jpg", "id1", "", "", ["p"]⟩ "p" [] rfl rfl⟩

/-- C2 (counterexample to the claim as stated): for the user-supplied output
filename "out.dat" the derived JSON filename is "out.dat" itself, so main
directs both the text report and the JSON dump to the same file. -/
theorem c2_counterexample :
    jsonFileName "out.dat" = "out.dat" ∧
    (mainAfterListing (fun _ => none) 1 [⟨"a.jpg", "id1", "", "", []⟩] "out.dat" true).written.map
        Prod.fst = ["out.dat", "out.dat"] := by
  exact ⟨by decide, by decide⟩

/-- C2 (amended): the JSON filename is the text filename with every
occurrence of the substring ".txt" replaced by ".json"; when the output
filename is a stem containing no ".txt" occurrence followed by the ".txt"
extension, the result is the sibling stem ++ ".json", distinct from the
text report file. -/
theorem c2_json_sibling (stem : String) (h : hasTxt stem.data = false) :
    jsonFileName (stem ++ ".txt") = stem ++ ".json" ∧
    jsonFileName (stem ++ ".txt") ≠ stem ++ ".txt" := by
  have heq : jsonFileName (stem ++ ".txt") = stem ++ ".json" := by
    apply String.ext
    show replaceTxtJson (stem ++ ".txt").data = (stem ++ ".json").data
    rw [String.data_append, String.data_append]
    exact replaceTxtJson_append stem.data h
  refine ⟨heq, ?_⟩
  rw [heq]
  intro hbad
  have hlen := congrArg String.length hbad
  rw [String.length_append, String.length_append] at hlen
  have h5 : String.length ".json" = 5 := rfl
  have h4 : String.length ".txt" = 4 := rfl
  rw [h5, h4] at hlen
  omega

/-- Witness for c2_json_sibling at the default output filename. -/
theorem c2_json_sibling_witness :
    hasTxt ("image_paths" : String).data = false ∧
    jsonFileName ("image_paths" ++ ".txt") = "image_paths" ++ ".json" ∧
    jsonFileName ("image_paths" ++ ".txt") ≠ "image_paths" ++ ".txt" :=
  ⟨by decide, (c2_json_sibling "image_paths" (by decide)).1,
    (c2_json_sibling "image_paths" (by decide)).2⟩

/-- C3 (counterexample to the claim as stated): on the acyclic chain whose
root is named "" and whose leaf is named "2024", the code returns "2024",
while the names joined with "/" separators give "/2024". -/
theorem c3_counterexample :
    Chain (fun i => if i = "c" then some ⟨"2024", ["r"]⟩ else
        if i = "r" then some ⟨"", []⟩ else none) "c" [("r", ""), ("c", "2024")] ∧
    (get_folder_path (fun i => if i = "c" then some ⟨"2024", ["r"]⟩ else
        if i = "r" then some ⟨"", []⟩ else none) 2 "c" []).path = "2024" ∧
    slashJoin ["", "2024"] = "/2024" ∧ ("2024" : String) ≠ "/2024" := by
  refine ⟨?_, by decide, by decide, by decide⟩
  exact Chain.step "c" "2024" "r" [] [("r", "")] (by decide) (Chain.root "r" "" (by decide))

/-- C3 (amended): along any acyclic ancestor chain ending in a parentless
folder, all of whose folder names are nonempty, get_folder_path started on
the empty cache returns the chain's names concatenated with "/" separators
in root-to-leaf order, following only the first parent at each step. -/
theorem c3_chain_slash_path (service : Service) (fid : String)
    (pairs : List (String × String)) (fuel : Nat)
    (h : Chain service fid pairs) (hne : ∀ nm ∈ pairs.map Prod.snd, nm ≠ "")
    (hf : pairs.length ≤ fuel) :
    (get_folder_path service fuel fid []).path = slashJoin (pairs.map Prod.snd) := by
  rw [(chain_eval service h fuel hf).1, codeJoin_eq_slashJoin _ hne]

/-- Witness for c3_chain_slash_path: the chain Photos -> 2024 yields
"Photos/2024". -/
theorem c3_chain_slash_path_witness :
    Chain (fun i => if i = "c" then some ⟨"2024", ["r"]⟩ else
        if i = "r" then some ⟨"Photos", []⟩ else none) "c" [("r", "Photos"), ("c", "2024")] ∧
    (get_folder_path (fun i => if i = "c" then some ⟨"2024", ["r"]⟩ else
        if i = "r" then some ⟨"Photos", []⟩ else none) 2 "c" []).path
      = slashJoin ["Photos", "2024"] := by
  have hch : Chain (fun i => if i = "c" then some ⟨"2024", ["r"]⟩ else
      if i = "r" then some ⟨"Photos", []⟩ else none) "c" [("r", "Photos"), ("c", "2024")] :=
    Chain.step "c" "2024" "r" [] [("r", "Photos")] (by decide) (Chain.root "r" "Photos" (by decide))
  exact ⟨hch, c3_chain_slash_path _ "c" [("r", "Photos"), ("c", "2024")] 2 hch (by decide) (by decide)⟩

/-- C4: whatever way the provider pages its answer to the query, the files
in the result of get_image_files are exactly the account files that are
non-trashed, inside the requested scope, and whose name's extension,
compared case-insensitively, is in IMAGE_EXTENSIONS; "IMG.JPG" passes the
extension test and "notes.txt" does not. -/
theorem c4_filter_characterization (drive : List DriveFile) (folder_id : Option String)
    (pages : List (List DriveFile)) (hpages : pages.join = listFiles drive folder_id) :
    get_image_files pages =
      (drive.filter fun f =>
          isImageName (f.name.getD "") &&
            (!f.trashed &&
              (match folder_id with
               | some fid => (f.parents.getD []).contains fid
               | none => true))).map toImageRecord ∧
    isImageName "IMG.JPG" = true ∧ isImageName "notes.txt" = false := by
  refine ⟨?_, by decide, by decide⟩
  rw [get_image_files_eq, hpages, listFiles, List.filter_filter]

/-- Witness for c4_filter_characterization: a three-file account listing
split into two pages. -/
theorem c4_filter_characterization_witness :
    ([[⟨some "IMG.JPG", "f1", false, none, none, none⟩],
      [⟨some "notes.txt", "f2", false, none, none, none⟩]] : List (List DriveFile)).join
      = listFiles
          [⟨some "IMG.JPG", "f1", false, none, none, none⟩,
           ⟨some "notes.txt", "f2", false, none, none, none⟩,
           ⟨some "b.png", "f3", true, none, none, none⟩] none ∧
    (get_image_files
        [[⟨some "IMG.JPG", "f1", false, none, none, none⟩],
         [⟨some "notes.txt", "f2", false, none, none, none⟩]] =
      (([⟨some "IMG.JPG", "f1", false, none, none, none⟩,
         ⟨some "notes.txt", "f2", false, none, none, none⟩,
         ⟨some "b.png", "f3", true, none, none, none⟩] : List DriveFile).filter fun f =>
          isImageName (f.name.getD "") &&
            (!f.trashed &&
              (match (none : Option String) with
               | some fid => (f.parents.getD []).contains fid
               | none => true))).map toImageRecord ∧
      isImageName "IMG.JPG" = true ∧ isImageName "notes.txt" = false) :=
  ⟨by decide,
    c4_filter_characterization
      [⟨some "IMG.JPG", "f1", false, none, none, none⟩,
       ⟨some "notes.txt", "f2", false, none, none, none⟩,
       ⟨some "b.png", "f3", true, none, none, none⟩] none
      [[⟨some "IMG.JPG", "f1", false, none, none, none⟩],
       [⟨some "notes.txt", "f2", false, none, none, none⟩]] (by decide)⟩

/-- C5: along a successfully resolved ancestor chain, each chain folder is
fetched exactly once, and any later resolution starting from the resulting
cache — in particular the one for a second file sharing that ancestor —
issues no further fetch for it: the second use is a cache hit. -/
theorem c5_memoized_single_fetch (service : Service) (fid fid2 g : String)
    (pairs : List (String × String)) (fuel fuel2 : Nat)
    (h : Chain service fid pairs) (hg : g ∈ pairs.map Prod.fst)
    (hf : pairs.length ≤ fuel) :
    (get_folder_path service fuel fid []).fetched.count g = 1 ∧
    g ∉ (get_folder_path service fuel2 fid2 (get_folder_path service fuel fid []).cache).fetched := by
  obtain ⟨-, h2, h3⟩ := chain_eval service h fuel hf
  constructor
  · rw [h2, List.count_reverse]
    exact List.count_eq_one_of_mem (chain_nodup h) hg
  · exact no_refetch service g fuel2 fid2 _ (h3 g hg)

/-- Witness for c5_memoized_single_fetch: files A and B share the ancestor
g; resolving A's chain fetches g once, and resolving B afterwards does not
fetch g again. -/
theorem c5_memoized_single_fetch_witness :
    Chain (fun i => if i = "a" then some ⟨"A", ["g"]⟩ else
        if i = "g" then some ⟨"2024", ["r"]⟩ else
        if i = "r" then some ⟨"Photos", []⟩ else
        if i = "b" then some ⟨"B", ["g"]⟩ else none) "a"
      [("r", "Photos"), ("g", "2024"), ("a", "A")] ∧
    "g" ∈ ([("r", "Photos"), ("g", "2024"), ("a", "A")].map Prod.fst) ∧
    ((get_folder_path (fun i => if i = "a" then some ⟨"A", ["g"]⟩ else
        if i = "g" then some ⟨"2024", ["r"]⟩ else
        if i = "r" then some ⟨"Photos", []⟩ else
        if i = "b" then some ⟨"B", ["g"]⟩ else none) 3 "a" []).fetched.count "g" = 1 ∧
      "g" ∉ (get_folder_path (fun i => if i = "a" then some ⟨"A", ["g"]⟩ else
        if i = "g" then some ⟨"2024", ["r"]⟩ else
        if i = "r" then some ⟨"Photos", []⟩ else
        if i = "b" then some ⟨"B", ["g"]⟩ else none) 5 "b"
          (get_folder_path (fun i => if i = "a" then some ⟨"A", ["g"]⟩ else
            if i = "g" then some ⟨"2024", ["r"]⟩ else
            if i = "r" then some ⟨"Photos", []⟩ else
            if i = "b" then some ⟨"B", ["g"]⟩ else none) 3 "a" []).cache).fetched) := by
  have hch : Chain (fun i => if i = "a" then some ⟨"A", ["g"]⟩ else
      if i = "g" then some ⟨"2024", ["r"]⟩ else
      if i = "r" then some ⟨"Photos", []⟩ else
      if i = "b" then some ⟨"B", ["g"]⟩ else none) "a"
      [("r", "Photos"), ("g", "2024"), ("a", "A")] :=
    Chain.step "a" "A" "g" [] [("r", "Photos"), ("g", "2024")] (by decide)
      (Chain.step "g" "2024" "r" [] [("r", "Photos")] (by decide)
        (Chain.root "r" "Photos" (by decide)))
  exact ⟨hch, by decide,
    c5_memoized_single_fetch _ "a" "b" "g" [("r", "Photos"), ("g", "2024"), ("a", "A")] 3 5
      hch (by decide) (by decide)⟩

/-- C6: path resolution is a function of the parent graph alone: resolving
from any pre-populated memo cache whose entries are resolved paths returns
the same path string as resolving from the empty cache. -/
theorem c6_cache_preserves_result (service : Service) (fid : String)
    (pairs : List (String × String)) (c : Cache) (fuel : Nat)
    (h : Chain service fid pairs) (hc : ConsistentCache service c)
    (hf : pairs.length ≤ fuel) :
    (get_folder_path service fuel fid c).path = (get_folder_path service fuel fid []).path := by
  rw [chain_eval_consistent service h c hc fuel hf, (chain_eval service h fuel hf).1]

/-- Witness for c6_cache_preserves_result: resolving 2024 under Photos with
the cache pre-populated for the root returns the same "Photos/2024" as from
the empty cache. -/
theorem c6_cache_preserves_result_witness :
    Chain (fun i => if i = "c" then some ⟨"2024", ["r"]⟩ else
        if i = "r" then some ⟨"Photos", []⟩ else none) "c" [("r", "Photos"), ("c", "2024")] ∧
    ConsistentCache (fun i => if i = "c" then some ⟨"2024", ["r"]⟩ else
        if i = "r" then some ⟨"Photos", []⟩ else none) [("r", "Photos")] ∧
    (get_folder_path (fun i => if i = "c" then some ⟨"2024", ["r"]⟩ else
        if i = "r" then some ⟨"Photos", []⟩ else none) 2 "c" [("r", "Photos")]).path
      = (get_folder_path (fun i => if i = "c" then some ⟨"2024", ["r"]⟩ else
          if i = "r" then some ⟨"Photos", []⟩ else none) 2 "c" []).path := by
  have hch : Chain (fun i => if i = "c" then some ⟨"2024", ["r"]⟩ else
      if i = "r" then some ⟨"Photos", []⟩ else none) "c" [("r", "Photos"), ("c", "2024")] :=
    Chain.step "c" "2024" "r" [] [("r", "Photos")] (by decide) (Chain.root "r" "Photos" (by decide))
  have hcons : ConsistentCache (fun i => if i = "c" then some ⟨"2024", ["r"]⟩ else
      if i = "r" then some ⟨"Photos", []⟩ else none) [("r", "Photos")] := by
    intro k v hkv
    simp only [cacheLookup] at hkv
    split at hkv
    · rename_i hk
      refine ⟨[("r", "Photos")], ?_, ?_⟩
      · rw [hk]
        exact Chain.root "r" "Photos" (by decide)
      · simp only [Option.some.injEq] at hkv
        rw [← hkv]
        decide
    · exact absurd hkv (by simp)
  exact ⟨hch, hcons,
    c6_cache_preserves_result _ "c" [("r", "Photos"), ("c", "2024")] [("r", "Photos")] 2
      hch hcons (by decide)⟩

/-- C7: for a folder whose parent chain is finite, acyclic and reaches a
parentless folder, the fuelled recursion has bottomed out once the fuel
reaches the chain length: more fuel never changes the outcome, from any
starting cache. -/
theorem c7_resolution_terminates (service : Service) (fid : String)
    (pairs : List (String × String)) (c : Cache) (fuel : Nat)
    (h : Chain service fid pairs) (hf : pairs.length ≤ fuel) :
    get_folder_path service fuel fid c = get_folder_path service pairs.length fid c :=
  chain_fuel_stable h c fuel pairs.length hf (le_refl pairs.length)

/-- Witness for c7_resolution_terminates on the Photos -> 2024 chain with
surplus fuel. -/
theorem c7_resolution_terminates_witness :
    Chain (fun i => if i = "c" then some ⟨"2024", ["r"]⟩ else
        if i = "r" then some ⟨"Photos", []⟩ else none) "c" [("r", "Photos"), ("c", "2024")] ∧
    get_folder_path (fun i => if i = "c" then some ⟨"2024", ["r"]⟩ else
        if i = "r" then some ⟨"Photos", []⟩ else none) 7 "c" []
      = get_folder_path (fun i => if i = "c" then some ⟨"2024", ["r"]⟩ else
          if i = "r" then some ⟨"Photos", []⟩ else none)
          ([("r", "Photos"), ("c", "2024")].length) "c" [] := by
  have hch : Chain (fun i => if i = "c" then some ⟨"2024", ["r"]⟩ else
      if i = "r" then some ⟨"Photos", []⟩ else none) "c" [("r", "Photos"), ("c", "2024")] :=
    Chain.step "c" "2024" "r" [] [("r", "Photos")] (by decide) (Chain.root "r" "Photos" (by decide))
  exact ⟨hch,
    c7_resolution_terminates _ "c" [("r", "Photos"), ("c", "2024")] [] 7 hch (by decide)⟩

/-- C8: an empty image listing makes main print the "No image files found."
notice and return normally without writing the text report or the JSON
file. -/
theorem c8_empty_listing (service : Service) (fuel : Nat) (out : String) (links : Bool) :
    (mainAfterListing service fuel [] out links).printed = ["No image files found."] ∧
    (mainAfterListing service fuel [] out links).written = [] := by
  constructor <;> rfl

/-- C9: decoding the ids back from the JSON value written at line 167
returns exactly the ids of the in-memory listing, in order — the same count
and the same identifiers. -/
theorem c9_json_roundtrip_ids (images : List ImageRecord) :
    decodeIds (encodeImages images) = some (images.map ImageRecord.id) :=
  decodeIdList_encode images

/-- C10: a failing metadata fetch for an uncached folder id leaves the memo
cache exactly unchanged while returning "Unknown"; no resolution ever adds
that id to the cache; its next resolution re-attempts the fetch; and every
entry any resolution leaves in the cache belongs to a folder id whose fetch
succeeds. -/
theorem c10_failed_fetch_not_cached (service : Service) (fuel : Nat)
    (fid k k2 v2 : String) (c : Cache)
    (hfail : service k = none) (hk : cacheLookup c k = none)
    (h2 : cacheLookup (get_folder_path service fuel fid c).cache k2 = some v2) :
    (get_folder_path service fuel k c).cache = c ∧
    (get_folder_path service fuel k c).path = "Unknown" ∧
    cacheLookup (get_folder_path service fuel fid c).cache k = none ∧
    (1 ≤ fuel → (get_folder_path service fuel k c).fetched = [k]) ∧
    (cacheLookup c k2 = some v2 ∨ (service k2).isSome) := by
  obtain ⟨hpath, hcache, hfetch⟩ := get_folder_path_fail service fuel k c hfail hk
  exact ⟨hcache, hpath, cacheLookup_keep service k hfail fuel fid c hk, hfetch,
    cacheLookup_entries service fuel fid c k2 v2 h2⟩

/-- Witness for c10_failed_fetch_not_cached: resolving the root Photos
caches it, while the failing id x stays uncached and resolves to Unknown. -/
theorem c10_failed_fetch_not_cached_witness :
    ((fun i => if i = "r" then some ⟨"Photos", []⟩ else none : Service) "x" = none) ∧
    cacheLookup [] "x" = none ∧
    cacheLookup (get_folder_path
        (fun i => if i = "r" then some ⟨"Photos", []⟩ else none) 3 "r" []).cache "r"
      = some "Photos" ∧
    ((get_folder_path (fun i => if i = "r" then some ⟨"Photos", []⟩ else none) 3 "x" []).cache
        = [] ∧
      (get_folder_path (fun i => if i = "r" then some ⟨"Photos", []⟩ else none) 3 "x" []).path
        = "Unknown" ∧
      cacheLookup (get_folder_path
          (fun i => if i = "r" then some ⟨"Photos", []⟩ else none) 3 "r" []).cache "x" = none ∧
      (1 ≤ 3 → (get_folder_path
          (fun i => if i = "r" then some ⟨"Photos", []⟩ else none) 3 "x" []).fetched = ["x"]) ∧
      (cacheLookup [] "r" = some "Photos" ∨
        ((fun i => if i = "r" then some ⟨"Photos", []⟩ else none : Service) "r").isSome)) :=
  ⟨rfl, rfl, by decide,
    c10_failed_fetch_not_cached (fun i => if i = "r" then some ⟨"Photos", []⟩ else none) 3
      "r" "x" "r" "Photos" [] rfl rfl (by decide)⟩

